import Mathlib

/-!
Verification of the version-tracking and update-detection workflow of the
`ai-dev-workstation-mac` repository (scripts/update-tools.py, scripts/utils.py).

The Python code is shallowly embedded: dictionaries become structures,
`Optional[str]` becomes `Option String`, JSON values become an inductive
`Json` type, and code that can raise a Python exception past its own
boundary returns `Except PyErr _`.  Network and subprocess effects are
abstracted as explicit inputs (the JSON the HTTP client decoded, or the
outcome of the `brew` subprocess).
-/

/-- Python exceptions that the embedded resolver code can raise. -/
inductive PyErr where
  | keyError
  | typeError
  | attributeError
deriving DecidableEq, Repr

/-- JSON values, as decoded by `HTTPClient.get` / `json.loads`.
`Json.null` also stands for Python `None`. -/
inductive Json where
  | null
  | bool (b : Bool)
  | num (n : Int)
  | str (s : String)
  | arr (xs : List Json)
  | obj (kvs : List (String × Json))

/-- Python truthiness of a JSON value (`if data:`). -/
def jsonTruthy : Json → Bool
  | .null => false
  | .bool b => b
  | .num n => n != 0
  | .str s => s != ""
  | .arr xs => !xs.isEmpty
  | .obj kvs => !kvs.isEmpty

/-!
## Version comparison (`ToolVersionChecker._is_newer_version`)

The Python code compares with `packaging.version.parse`, a third-party
library that is not part of this repository.  Modelled from the spec:
"semantic-version-aware ordering when both strings parse as valid
semantic versions" — a version is a dot-separated list of decimal numeric
components, compared componentwise with missing components treated as 0.
-/

/-- Split a character list on `'.'` (the list of dot-separated components). -/
def splitDots : List Char → List (List Char)
  | [] => [[]]
  | c :: cs =>
    match splitDots cs with
    | [] => [[]]
    | p :: ps => if c = '.' then [] :: p :: ps else (c :: p) :: ps

/-- A version component: a nonempty string of decimal digits, as a number. -/
def parseComp (l : List Char) : Option Nat :=
  if l ≠ [] ∧ l.all (fun c => c.isDigit) then
    some (l.foldl (fun acc c => acc * 10 + (c.toNat - 48)) 0)
  else none

/-- Modelled from the spec: parse a semantic version string into its numeric
components; `none` when any dot-separated component is not a plain decimal
number (the case in which `packaging.version.parse` raises and
`_is_newer_version` falls back to string inequality). -/
def parseVersion (s : String) : Option (List Nat) :=
  (splitDots s.data).mapM parseComp

/-- Componentwise comparison of parsed versions, missing components = 0. -/
def cmpVer : List Nat → List Nat → Ordering
  | [], [] => .eq
  | [], b :: bs => if (b :: bs).all (· = 0) then .eq else .lt
  | a :: as, [] => if (a :: as).all (· = 0) then .eq else .gt
  | a :: as, b :: bs =>
      if a < b then .lt else if b < a then .gt else cmpVer as bs

/-- `ToolVersionChecker._is_newer_version(new_version, current_version)`:
semantic comparison when both parse, otherwise the `except` branch falls
back to plain string inequality. -/
def isNewerVersion (newVersion currentVersion : String) : Bool :=
  match parseVersion newVersion, parseVersion currentVersion with
  | some a, some b => cmpVer a b == .gt
  | _, _ => newVersion != currentVersion

/-!
## Update detector (`ToolVersionChecker.check_tool_updates`)

A tracked tool's config entry (`tool_info`).  Missing dictionary keys are
`none`; the Python guards use truthiness, so an empty string behaves like
an absent key. -/
structure ToolInfo where
  current_version : String
  description : String
  homebrew_formula : Option String := none
  pypi_package : Option String := none
  npm_package : Option String := none
  source : Option String := none
  last_updated : Option String := none
deriving DecidableEq, Repr

/-- Python truthiness of `tool_info.get(key)` / of an optional version:
truthy iff present and a nonempty string. -/
def optTruthy : Option String → Bool
  | none => false
  | some s => s != ""

/-- The results of the four upstream version sources, abstracted as oracles
(the network / subprocess responses of `check_homebrew_version`,
`check_pypi_version`, `check_npm_version`, `check_github_releases`). -/
structure ResolverEnv where
  homebrew : String → Option String
  pypi : String → Option String
  npm : String → Option String
  github : String → Option String

/-- `ToolVersionChecker._get_latest_version`: try Homebrew, then PyPI, then
npm, returning at the first truthy result; if a `source` URL is configured
the GitHub result is returned unconditionally; otherwise `None`. -/
def getLatestVersion (env : ResolverEnv) (info : ToolInfo) : Option String :=
  if optTruthy info.homebrew_formula &&
      optTruthy (env.homebrew (info.homebrew_formula.getD "")) then
    env.homebrew (info.homebrew_formula.getD "")
  else if optTruthy info.pypi_package &&
      optTruthy (env.pypi (info.pypi_package.getD "")) then
    env.pypi (info.pypi_package.getD "")
  else if optTruthy info.npm_package &&
      optTruthy (env.npm (info.npm_package.getD "")) then
    env.npm (info.npm_package.getD "")
  else if optTruthy info.source then
    env.github (info.source.getD "")
  else
    none

/-- One element of `updates_found` (`ToolVersionChecker._record_update`). -/
structure VersionUpdate where
  tool : String
  category : String
  old_version : String
  new_version : String
  description : String
deriving DecidableEq, Repr

/-- The body of the inner loop of `check_tool_updates` for one tool entry:
the recorded updates (zero or one) and the possibly rewritten `tool_info`.
`ts` is `get_current_timestamp()`. -/
def checkOneTool (env : ResolverEnv) (ts : String) (cat toolName : String)
    (info : ToolInfo) : List VersionUpdate × ToolInfo :=
  match getLatestVersion env info with
  | none => ([], info)
  | some v =>
    if v != "" && isNewerVersion v info.current_version then
      ([{ tool := toolName, category := cat, old_version := info.current_version,
          new_version := v, description := info.description }],
       { info with current_version := v, last_updated := some ts })
    else ([], info)

/-- `check_tool_updates` over the whole `tracked_tools` table
(categories in order, tools in order within a category): the collected
`updates_found` list and the rewritten table. -/
def checkToolUpdates (env : ResolverEnv) (ts : String)
    (table : List (String × List (String × ToolInfo))) :
    List VersionUpdate × List (String × List (String × ToolInfo)) :=
  (table.flatMap fun c => c.2.flatMap fun t => (checkOneTool env ts c.1 t.1 t.2).1,
   table.map fun c => (c.1, c.2.map fun t => (t.1, (checkOneTool env ts c.1 t.1 t.2).2)))

/-!
## Trend scanner (`ToolVersionChecker.search_trending_tools`)
-/

/-- One repository object from the GitHub search response `items`. -/
structure Repo where
  name : String
  html_url : String
  description : Option String
  stargazers_count : Nat
  language : Option String
  created_at : String
deriving DecidableEq, Repr

/-- One element of `self.trending_tools`. -/
structure TrendEntry where
  name : String
  url : String
  description : String
  stars : Nat
  language : Option String
  topic : String
  created_at : String
deriving DecidableEq, Repr

/-- The dictionary appended for one retained repository
(`repo['description'] or 'No description available'`). -/
def mkTrendEntry (topic : String) (r : Repo) : TrendEntry :=
  { name := r.name
    url := r.html_url
    description :=
      match r.description with
      | some s => if s != "" then s else "No description available"
      | none => "No description available"
    stars := r.stargazers_count
    language := r.language
    topic := topic
    created_at := r.created_at }

/-- The inner loop of `search_trending_tools` for one topic whose search
returned `items`: append every repository with more than 50 stars to the
running `trending_tools` list. -/
def searchTopicStep (trending : List TrendEntry) (topic : String)
    (items : List Repo) : List TrendEntry :=
  items.foldl
    (fun acc r =>
      if r.stargazers_count > 50 then acc ++ [mkTrendEntry topic r] else acc)
    trending

/-!
## Report renderer (`ReportGenerator.generate_markdown_report`)
-/

/-- One section dictionary: `title` always present, `content` and `items`
optional keys. -/
structure ReportSection where
  title : String
  content : Option String := none
  items : Option (List String) := none
deriving DecidableEq, Repr

/-- The lines the loop body appends for one section. -/
def sectionLines (s : ReportSection) : List String :=
  ["## " ++ s.title] ++
    (match s.content with | some c => [c] | none => []) ++
    (match s.items with
     | some its => its.map (fun it => "- " ++ it)
     | none => []) ++
    [""]

/-- `ReportGenerator.generate_markdown_report(title, sections)`, with the
`datetime.now()` timestamp string passed in as `now`. -/
def generateMarkdownReport (now title : String)
    (sections : List ReportSection) : String :=
  String.intercalate "\n"
    (["# " ++ title, "*Generated: " ++ now ++ "*\n"] ++
      sections.flatMap sectionLines)

/-!
## Resolvers over decoded JSON

`HTTPClient.get` catches every `requests.exceptions.RequestException`
(transport faults, timeouts, HTTP error statuses) and every
`json.JSONDecodeError`, returning `None`; so a resolver's input is
`Option Json` — `none` for any such caught fault, `some data` for a
successfully decoded body.
-/

/-- Python `key in data` (may raise `TypeError` on non-container values). -/
def jsonContains : Json → String → Except PyErr Bool
  | .obj kvs, k => .ok (kvs.any (fun kv => kv.1 == k))
  | .arr xs, k =>
    .ok (xs.any (fun j => match j with | .str s => s == k | _ => false))
  | .str s, k =>
    .ok ((List.range (s.data.length + 1)).any
      (fun i => k.data.isPrefixOf (s.data.drop i)))
  | _, _ => .error .typeError

/-- Python `data[key]` (raises `KeyError` when the key is absent from a
dict, `TypeError` when the value is not a dict). -/
def getIndex : Json → String → Except PyErr Json
  | .obj kvs, k =>
    match kvs.find? (fun kv => kv.1 == k) with
    | some kv => .ok kv.2
    | none => .error .keyError
  | _, _ => .error .typeError

/-- Python `data.get(key, default)` (raises `AttributeError` when the value
is not a dict). -/
def pyDictGetD (j : Json) (k : String) (dflt : Json) : Except PyErr Json :=
  match j with
  | .obj kvs =>
    .ok (match kvs.find? (fun kv => kv.1 == k) with
         | some kv => kv.2
         | none => dflt)
  | _ => .error .attributeError

/-- `ToolVersionChecker.check_pypi_version` applied to the decoded response
(`Json.null` is Python `None`). -/
def checkPypiVersion (resp : Option Json) : Except PyErr Json :=
  match resp with
  | none => .ok .null
  | some data =>
    if jsonTruthy data then do
      let c ← jsonContains data "info"
      if c then do
        let info ← getIndex data "info"
        getIndex info "version"
      else .ok .null
    else .ok .null

/-- `ToolVersionChecker.check_npm_version` applied to the decoded response. -/
def checkNpmVersion (resp : Option Json) : Except PyErr Json :=
  match resp with
  | none => .ok .null
  | some data =>
    if jsonTruthy data then do
      let c ← jsonContains data "dist-tags"
      if c then do
        let tags ← getIndex data "dist-tags"
        getIndex tags "latest"
      else .ok .null
    else .ok .null

/-- Drop a literal character sequence from the head of the input, or fail. -/
def dropLit : List Char → List Char → Option (List Char)
  | [], l => some l
  | _ :: _, [] => none
  | p :: ps, c :: cs => if p == c then dropLit ps cs else none

/-- Match the regular expression `github\.com/([^/]+)/([^/]+)` anchored at
the head of the input, returning the two captured groups. -/
def matchGithubAt (l : List Char) : Option (String × String) :=
  match dropLit "github.com/".data l with
  | none => none
  | some r =>
    let owner := r.takeWhile (fun c => c != '/')
    match r.dropWhile (fun c => c != '/') with
    | '/' :: r2 =>
      let repo := r2.takeWhile (fun c => c != '/')
      if owner.isEmpty || repo.isEmpty then none
      else some (String.mk owner, String.mk repo)
    | _ => none

/-- `re.search(r'github\.com/([^/]+)/([^/]+)', url)`: try each start
position from the left. -/
def searchGithubUrl : List Char → Option (String × String)
  | [] => none
  | c :: cs =>
    match matchGithubAt (c :: cs) with
    | some x => some x
    | none => searchGithubUrl cs

/-- The owner/repo extraction at the top of `check_github_releases`. -/
def extractOwnerRepo (url : String) : Option (String × String) :=
  searchGithubUrl url.data

/-- `ToolVersionChecker.check_github_releases`: `None` when the URL has no
`github.com/owner/repo` part; otherwise the decoded response's `tag_name`
with all leading `v` characters stripped (`.lstrip('v')`). -/
def checkGithubReleases (repoUrl : String) (resp : Option Json) :
    Except PyErr Json :=
  match extractOwnerRepo repoUrl with
  | none => .ok .null
  | some _ =>
    match resp with
    | none => .ok .null
    | some data =>
      if jsonTruthy data then do
        let c ← jsonContains data "tag_name"
        if c then do
          let tag ← getIndex data "tag_name"
          match tag with
          | .str s => .ok (.str (String.mk (s.data.dropWhile (fun ch => ch == 'v'))))
          | _ => .error .attributeError
        else .ok .null
      else .ok .null

/-- Outcome of the `brew info <formula> --json` subprocess inside
`check_homebrew_version`: either one of the exceptions the function
catches, or a completed process with its return code and the result of
`json.loads` on its stdout (`none` = `json.JSONDecodeError`, also caught). -/
inductive BrewOutcome where
  | timeoutExpired
  | calledProcessError
  | completed (returncode : Int) (decoded : Option Json)

/-- `check_homebrew_version` (scripts/utils.py): caught faults give `None`;
on a zero exit with decodable JSON it reads
`data[0].get('versions', {}).get('stable', None)` behind the guard
`data and isinstance(data, list) and len(data) > 0`. -/
def checkHomebrewVersion : BrewOutcome → Except PyErr Json
  | .timeoutExpired => .ok .null
  | .calledProcessError => .ok .null
  | .completed rc dec =>
    if rc == 0 then
      match dec with
      | none => .ok .null
      | some data =>
        match data with
        | .arr (x :: _) => do
          let versions ← pyDictGetD x "versions" (Json.obj [])
          pyDictGetD versions "stable" Json.null
        | _ => .ok .null
    else .ok .null

/-!
## README rewrite (`ToolVersionChecker.update_readme`)

The loop over `updates_found` substitutes the regular expression
`(\*\*{re.escape(tool)}\*\*\|)([^|]+)(\|)` (with `re.IGNORECASE`) by
`\g<1>{new_version} (Updated {date})\g<3>`, but only for updates whose
category is `ai_frameworks`.
-/

/-- Case-insensitive literal match at the head of the input
(`re.IGNORECASE`): returns the original matched characters and the rest. -/
def ciDropLit : List Char → List Char → Option (List Char × List Char)
  | [], l => some ([], l)
  | _ :: _, [] => none
  | p :: ps, c :: cs =>
    if p.toLower == c.toLower then
      match ciDropLit ps cs with
      | some (g, r) => some (c :: g, r)
      | none => none
    else none

/-- The pattern `({pat})([^|]+)(\|)` matched at the head of the input:
group 1's original text, group 2, and the input after the whole match. -/
def rowMatchAt (pat l : List Char) : Option (List Char × List Char × List Char) :=
  match ciDropLit pat l with
  | none => none
  | some (g1, r) =>
    match r.dropWhile (fun c => c != '|') with
    | [] => none
    | d :: rest =>
      if d == '|' && !(r.takeWhile (fun c => c != '|')).isEmpty then
        some (g1, r.takeWhile (fun c => c != '|'), rest)
      else none

theorem ciDropLit_eq_append {p l g r : List Char}
    (h : ciDropLit p l = some (g, r)) : l = g ++ r ∧ g.length = p.length := by
  induction p generalizing l g r with
  | nil =>
    simp only [ciDropLit, Option.some.injEq, Prod.mk.injEq] at h
    simp [← h.1, ← h.2]
  | cons p ps ih =>
    cases l with
    | nil => simp [ciDropLit] at h
    | cons c cs =>
      simp only [ciDropLit] at h
      split at h
      · cases h' : ciDropLit ps cs with
        | none => rw [h'] at h; simp at h
        | some gr =>
          rw [h'] at h
          obtain ⟨g', r'⟩ := gr
          simp only [Option.some.injEq, Prod.mk.injEq] at h
          obtain ⟨hg, hr⟩ := h
          obtain ⟨he, hl⟩ := ih h'
          subst hg hr
          simp [he, hl]
      · simp at h

theorem rowMatchAt_decomp {pat l g1 mid rest : List Char}
    (h : rowMatchAt pat l = some (g1, mid, rest)) :
    l = g1 ++ mid ++ '|' :: rest := by
  unfold rowMatchAt at h
  cases hc : ciDropLit pat l with
  | none => rw [hc] at h; simp at h
  | some gr =>
    rw [hc] at h
    obtain ⟨g, r⟩ := gr
    obtain ⟨hl, -⟩ := ciDropLit_eq_append hc
    change (match List.dropWhile (fun c => c != '|') r with
      | [] => none
      | d :: rest =>
        if d == '|' && !(List.takeWhile (fun c => c != '|') r).isEmpty then
          some (g, List.takeWhile (fun c => c != '|') r, rest)
        else none) = some (g1, mid, rest) at h
    cases hd : r.dropWhile (fun c => c != '|') with
    | nil => rw [hd] at h; simp at h
    | cons d ds =>
      rw [hd] at h
      change (if d == '|' && !(List.takeWhile (fun c => c != '|') r).isEmpty
          then some (g, List.takeWhile (fun c => c != '|') r, ds)
          else none) = some (g1, mid, rest) at h
      by_cases hcond :
          (d == '|' && !(List.takeWhile (fun c => c != '|') r).isEmpty) = true
      · rw [if_pos hcond] at h
        simp only [Option.some.injEq, Prod.mk.injEq] at h
        obtain ⟨hg, hm, hr⟩ := h
        have hd' : d = '|' := by
          have hb := ((Bool.and_eq_true _ _).mp hcond).1
          simpa using hb
        have hr2 : r = List.takeWhile (fun c => c != '|') r ++ ('|' :: ds) := by
          conv_lhs => rw [← List.takeWhile_append_dropWhile
            (p := fun c => c != '|') (l := r)]
          rw [hd, hd']
        subst hg hm hr
        rw [hl]
        conv_lhs => rw [hr2]
        simp [List.append_assoc]
      · rw [if_neg hcond] at h
        simp at h

theorem rowMatchAt_rest_lt {pat l g1 mid rest : List Char}
    (h : rowMatchAt pat l = some (g1, mid, rest)) :
    rest.length < l.length := by
  have hdc := rowMatchAt_decomp h
  subst hdc
  simp
  omega

/-- `re.sub` for the row pattern: scan left to right, replace each
non-overlapping match of `({pat})([^|]+)(\|)` by group 1's text followed by
`rep` (which ends with the group-3 pipe), and continue after the match. -/
def subRow (pat rep : List Char) (l : List Char) : List Char :=
  match h : rowMatchAt pat l with
  | some (g1, _, rest) => g1 ++ rep ++ subRow pat rep rest
  | none =>
    match l with
    | [] => []
    | c :: cs => c :: subRow pat rep cs
termination_by l.length
decreasing_by
  · exact rowMatchAt_rest_lt h
  · simp

theorem rowMatchAt_nil (pat : List Char) : rowMatchAt pat [] = none := by
  unfold rowMatchAt
  cases hc : ciDropLit pat [] with
  | none => rfl
  | some gr =>
    obtain ⟨g, r⟩ := gr
    obtain ⟨hl, -⟩ := ciDropLit_eq_append hc
    have hr : r = [] := by
      cases g with
      | nil => simpa using hl.symm
      | cons x xs => simp at hl
    subst hr
    rfl

theorem subRow_nil (pat rep : List Char) : subRow pat rep [] = [] := by
  rw [subRow]
  split
  next heq => rw [rowMatchAt_nil] at heq; simp at heq
  next => rfl

theorem subRow_cons_none {pat : List Char} (rep : List Char) {c : Char}
    {cs : List Char} (h : rowMatchAt pat (c :: cs) = none) :
    subRow pat rep (c :: cs) = c :: subRow pat rep cs := by
  rw [subRow]
  split
  next heq => rw [h] at heq; simp at heq
  next => rfl

theorem subRow_match {pat l g1 mid rest : List Char} (rep : List Char)
    (h : rowMatchAt pat l = some (g1, mid, rest)) :
    subRow pat rep l = g1 ++ rep ++ subRow pat rep rest := by
  rw [subRow]
  split
  next g1' mid' rest' heq =>
    rw [h] at heq
    simp only [Option.some.injEq, Prod.mk.injEq] at heq
    obtain ⟨h1, -, h3⟩ := heq
    rw [h1, h3]
  next heq => rw [h] at heq; simp at heq

/-- Frame lemma: scanning a region where the pattern never matches copies
it verbatim. -/
theorem subRow_append_of_no_match (pat rep : List Char) :
    ∀ pre rest : List Char,
      (∀ i < pre.length, rowMatchAt pat (List.drop i (pre ++ rest)) = none) →
      subRow pat rep (pre ++ rest) = pre ++ subRow pat rep rest := by
  intro pre
  induction pre with
  | nil => intro rest _; simp
  | cons c pre ih =>
    intro rest h
    have h0 : rowMatchAt pat (c :: (pre ++ rest)) = none := by
      have := h 0 (by simp)
      simpa using this
    calc subRow pat rep ((c :: pre) ++ rest)
        = c :: subRow pat rep (pre ++ rest) := subRow_cons_none rep h0
      _ = c :: (pre ++ subRow pat rep rest) := by
          rw [ih rest (fun i hi => by
            have := h (i + 1) (by simp; omega)
            simpa using this)]
      _ = (c :: pre) ++ subRow pat rep rest := rfl

theorem subRow_eq_self_of_no_match (pat rep : List Char) (l : List Char)
    (h : ∀ i, rowMatchAt pat (List.drop i l) = none) :
    subRow pat rep l = l := by
  have := subRow_append_of_no_match pat rep l []
    (fun i hi => by simpa using h i)
  simpa [subRow_nil] using this

/-- `rf"(\*\*{re.escape(tool)}\*\*\|)..."`: the literal part of the row
pattern for one tool. -/
def rowPat (tool : String) : List Char := ("**" ++ tool ++ "**|").data

/-- The substitution text after group 1:
`{new_version} (Updated {date})` followed by the group-3 pipe. -/
def rowRep (newVersion date : String) : List Char :=
  (newVersion ++ " (Updated " ++ date ++ ")|").data

/-- One iteration of the `for update in self.updates_found` loop of
`update_readme`: only `ai_frameworks` updates touch the table. -/
def applyUpdateToReadme (date : String) (content : List Char)
    (u : VersionUpdate) : List Char :=
  if u.category == "ai_frameworks" then
    subRow (rowPat u.tool) (rowRep u.new_version date) content
  else content

/-- The version-table rewriting phase of `update_readme` (the loop over
`updates_found`). -/
def updateReadmeVersions (date : String) (updates : List VersionUpdate)
    (content : List Char) : List Char :=
  updates.foldl (applyUpdateToReadme date) content

theorem ciDropLit_self (p r : List Char) : ciDropLit p (p ++ r) = some (p, r) := by
  induction p with
  | nil => rfl
  | cons c cs ih => simp [ciDropLit, ih]

theorem takeWhile_pipe (v post : List Char) (hv : ∀ c ∈ v, c ≠ '|') :
    List.takeWhile (fun c => c != '|') (v ++ '|' :: post) = v ∧
    List.dropWhile (fun c => c != '|') (v ++ '|' :: post) = '|' :: post := by
  induction v with
  | nil => simp [List.takeWhile_cons, List.dropWhile_cons]
  | cons c cs ih =>
    have hc : c ≠ '|' := hv c (by simp)
    have ihh := ih (fun x hx => hv x (by simp [hx]))
    refine ⟨?_, ?_⟩ <;>
      simp [List.takeWhile_cons, List.dropWhile_cons, hc, ihh.1, ihh.2]

/-- The row pattern fires at the start of its own literal occurrence. -/
theorem rowMatchAt_here (pat v post : List Char) (hv : v ≠ [])
    (hp : ∀ c ∈ v, c ≠ '|') :
    rowMatchAt pat (pat ++ (v ++ '|' :: post)) = some (pat, v, post) := by
  unfold rowMatchAt
  rw [ciDropLit_self]
  simp only [(takeWhile_pipe v post hp).1, (takeWhile_pipe v post hp).2]
  cases v with
  | nil => exact absurd rfl hv
  | cons x xs => simp

theorem checkOneTool_pos {env : ResolverEnv} {ts cat toolName : String}
    {info : ToolInfo} {v : String}
    (h1 : getLatestVersion env info = some v)
    (h2 : v ≠ "") (h3 : isNewerVersion v info.current_version = true) :
    checkOneTool env ts cat toolName info =
      ([{ tool := toolName, category := cat,
          old_version := info.current_version, new_version := v,
          description := info.description }],
       { info with current_version := v, last_updated := some ts }) := by
  unfold checkOneTool
  rw [h1]
  simp [h2, h3]

theorem checkOneTool_none {env : ResolverEnv} {ts cat toolName : String}
    {info : ToolInfo} (hg : getLatestVersion env info = none) :
    checkOneTool env ts cat toolName info = ([], info) := by
  unfold checkOneTool
  rw [hg]

theorem checkOneTool_stale {env : ResolverEnv} {ts cat toolName : String}
    {info : ToolInfo} {v : String}
    (hg : getLatestVersion env info = some v)
    (hc : (v != "" && isNewerVersion v info.current_version) = false) :
    checkOneTool env ts cat toolName info = ([], info) := by
  unfold checkOneTool
  rw [hg]
  simp [hc]

theorem checkOneTool_mem {env : ResolverEnv} {ts cat toolName : String}
    {info : ToolInfo} {u : VersionUpdate}
    (h : u ∈ (checkOneTool env ts cat toolName info).1) :
    u.category = cat ∧ u.tool = toolName := by
  unfold checkOneTool at h
  cases hg : getLatestVersion env info with
  | none => rw [hg] at h; simp at h
  | some v =>
    rw [hg] at h
    by_cases hc : (v != "" && isNewerVersion v info.current_version) = true
    · simp [hc] at h
      simp [h]
    · simp [hc] at h

/-- Number of recorded updates for a given tool entry (tool name within a
category) in a run's `updates_found` list. -/
def updatesFor (toolName cat : String) (l : List VersionUpdate) : Nat :=
  (l.filter (fun u => u.tool == toolName && u.category == cat)).length

theorem updatesFor_append (toolName cat : String) (a b : List VersionUpdate) :
    updatesFor toolName cat (a ++ b) =
      updatesFor toolName cat a + updatesFor toolName cat b := by
  simp [updatesFor, List.filter_append]

theorem updatesFor_checkOne_ne {env : ResolverEnv} {ts c n : String}
    {i : ToolInfo} {toolName cat : String} (h : n ≠ toolName ∨ c ≠ cat) :
    updatesFor toolName cat (checkOneTool env ts c n i).1 = 0 := by
  simp only [updatesFor, List.length_eq_zero, List.filter_eq_nil_iff]
  intro u hu
  obtain ⟨hcat, htool⟩ := checkOneTool_mem hu
  rcases h with h | h <;> simp [hcat, htool, h]

theorem updatesFor_flatMap_zero {env : ResolverEnv} {ts c : String}
    {toolName cat : String} (tools : List (String × ToolInfo))
    (h : ∀ t ∈ tools, t.1 ≠ toolName ∨ c ≠ cat) :
    updatesFor toolName cat
      (tools.flatMap fun t => (checkOneTool env ts c t.1 t.2).1) = 0 := by
  induction tools with
  | nil => simp [updatesFor]
  | cons t rest ih =>
    rw [List.flatMap_cons, updatesFor_append]
    rw [updatesFor_checkOne_ne (h t (by simp)), ih (fun x hx => h x (by simp [hx]))]

theorem updatesFor_inner {env : ResolverEnv} {ts cat toolName : String}
    {info : ToolInfo} {v : String}
    (tools : List (String × ToolInfo))
    (hnodup : (tools.map Prod.fst).Nodup)
    (hmem : (toolName, info) ∈ tools)
    (h1 : getLatestVersion env info = some v) (h2 : v ≠ "")
    (h3 : isNewerVersion v info.current_version = true) :
    updatesFor toolName cat
      (tools.flatMap fun t => (checkOneTool env ts cat t.1 t.2).1) = 1 := by
  induction tools with
  | nil => simp at hmem
  | cons t rest ih =>
    rw [List.flatMap_cons, updatesFor_append]
    rcases List.mem_cons.mp hmem with heq | hrest
    · have ht : t = (toolName, info) := heq.symm
      subst ht
      have hrest0 : updatesFor toolName cat
          (rest.flatMap fun t => (checkOneTool env ts cat t.1 t.2).1) = 0 := by
        apply updatesFor_flatMap_zero
        intro x hx
        left
        intro hxe
        have : (toolName, info).1 ∉ rest.map Prod.fst :=
          (List.nodup_cons.mp (by simpa using hnodup)).1
        exact this (by simpa [hxe] using List.mem_map_of_mem Prod.fst hx)
      rw [hrest0]
      rw [checkOneTool_pos h1 h2 h3]
      simp [updatesFor]
    · have hne : t.1 ≠ toolName := by
        intro he
        have h1' : t.1 ∉ rest.map Prod.fst :=
          (List.nodup_cons.mp (by simpa using hnodup)).1
        exact h1' (by
          rw [he]
          simpa using List.mem_map_of_mem Prod.fst hrest)
      rw [updatesFor_checkOne_ne (Or.inl hne)]
      have := ih (by simpa using (List.nodup_cons.mp (by simpa using hnodup)).2) hrest
      omega

theorem updatesFor_outer_zero {env : ResolverEnv} {ts : String}
    {toolName cat : String}
    (table : List (String × List (String × ToolInfo)))
    (h : ∀ c ∈ table, c.1 ≠ cat) :
    updatesFor toolName cat
      (table.flatMap fun c =>
        c.2.flatMap fun t => (checkOneTool env ts c.1 t.1 t.2).1) = 0 := by
  induction table with
  | nil => simp [updatesFor]
  | cons c rest ih =>
    rw [List.flatMap_cons, updatesFor_append]
    rw [updatesFor_flatMap_zero c.2 (fun t _ => Or.inr (h c (by simp)))]
    rw [ih (fun x hx => h x (by simp [hx]))]

theorem updatesFor_run {env : ResolverEnv} {ts toolName cat : String}
    {info : ToolInfo} {v : String} :
    ∀ table : List (String × List (String × ToolInfo)),
      (table.map Prod.fst).Nodup →
      ∀ tools : List (String × ToolInfo), (cat, tools) ∈ table →
        (tools.map Prod.fst).Nodup →
        (toolName, info) ∈ tools →
        getLatestVersion env info = some v → v ≠ "" →
        isNewerVersion v info.current_version = true →
        updatesFor toolName cat (checkToolUpdates env ts table).1 = 1 := by
  intro table
  induction table with
  | nil =>
    intro _ tools hmemc
    simp at hmemc
  | cons c rest ih =>
    intro hnodupc tools hmemc hnodupt hmem h1 h2 h3
    have hsplit : (checkToolUpdates env ts (c :: rest)).1 =
        (c.2.flatMap fun t => (checkOneTool env ts c.1 t.1 t.2).1) ++
          (checkToolUpdates env ts rest).1 := by
      simp [checkToolUpdates]
    rw [hsplit, updatesFor_append]
    have hnodup_rest : (rest.map Prod.fst).Nodup :=
      (List.nodup_cons.mp (by simpa using hnodupc)).2
    have hhead_notin : c.1 ∉ rest.map Prod.fst :=
      (List.nodup_cons.mp (by simpa using hnodupc)).1
    rcases List.mem_cons.mp hmemc with heq | hrest
    · have hc : c = (cat, tools) := heq.symm
      subst hc
      have hz : updatesFor toolName cat (checkToolUpdates env ts rest).1 = 0 := by
        have : (checkToolUpdates env ts rest).1 =
            rest.flatMap fun r =>
              r.2.flatMap fun t => (checkOneTool env ts r.1 t.1 t.2).1 := by
          simp [checkToolUpdates]
        rw [this]
        apply updatesFor_outer_zero
        intro x hx he
        exact hhead_notin
          (by simpa [← he] using List.mem_map_of_mem Prod.fst hx)
      rw [hz, updatesFor_inner tools hnodupt hmem h1 h2 h3]
    · have hcne : c.1 ≠ cat := by
        intro he
        exact hhead_notin (by
          rw [he]
          simpa using List.mem_map_of_mem Prod.fst hrest)
      rw [updatesFor_flatMap_zero c.2 (fun t _ => Or.inr hcne)]
      rw [ih hnodup_rest tools hrest hnodupt hmem h1 h2 h3]

theorem searchTopicStep_eq (init : List TrendEntry) (topic : String)
    (items : List Repo) :
    searchTopicStep init topic items =
      init ++ (items.filter fun r => r.stargazers_count > 50).map
        (mkTrendEntry topic) := by
  induction items generalizing init with
  | nil => simp [searchTopicStep]
  | cons r rest ih =>
    unfold searchTopicStep at ih ⊢
    simp only [List.foldl_cons]
    by_cases h : r.stargazers_count > 50
    · rw [if_pos h, ih]
      simp [List.filter_cons, h, List.append_assoc]
    · rw [if_neg h, ih]
      simp [List.filter_cons, h]

theorem cmpVer_self (a : List Nat) : cmpVer a a = .eq := by
  induction a with
  | nil => rfl
  | cons x xs ih => simp [cmpVer, ih]

theorem cmpVer_swap (a b : List Nat) : cmpVer b a = (cmpVer a b).swap := by
  induction a generalizing b with
  | nil =>
    cases b with
    | nil => rfl
    | cons y ys => simp only [cmpVer]; split <;> rfl
  | cons x xs ih =>
    cases b with
    | nil => simp only [cmpVer]; split <;> rfl
    | cons y ys =>
      simp only [cmpVer]
      rcases Nat.lt_trichotomy x y with h | h | h
      · simp [h, Nat.lt_asymm h, Ordering.swap]
      · subst h
        simp [Nat.lt_irrefl, ih ys]
      · simp [h, Nat.lt_asymm h, Ordering.swap]

/-!
## Concrete scenarios used by counterexamples and witnesses
-/

/-- Resolver results: Homebrew gives "1.0.0", PyPI the greater "2.0.0". -/
def envC1 : ResolverEnv :=
  { homebrew := fun _ => some "1.0.0"
    pypi := fun _ => some "2.0.0"
    npm := fun _ => none
    github := fun _ => none }

/-- A tool configured with both a Homebrew formula and a PyPI package. -/
def infoC1 : ToolInfo :=
  { current_version := "0.5.0"
    description := "agent framework"
    homebrew_formula := some "f"
    pypi_package := some "p" }

/-- Resolver results: only PyPI answers, with "1.3.0". -/
def envC2 : ResolverEnv :=
  { homebrew := fun _ => none
    pypi := fun _ => some "1.3.0"
    npm := fun _ => none
    github := fun _ => none }

/-- A PyPI-only tool stored at version "1.2.0". -/
def infoC2 : ToolInfo :=
  { current_version := "1.2.0"
    description := "agent framework"
    pypi_package := some "langchain" }

/-- A one-category, one-tool `tracked_tools` table. -/
def tableC2 : List (String × List (String × ToolInfo)) :=
  [("ai_frameworks", [("langchain", infoC2)])]

/-- C1 counterexample: with Homebrew returning "1.0.0" and PyPI returning
the strictly greater "2.0.0", the update sets `current_version` to
"1.0.0" — the first non-empty resolver result — and not to the maximum
"2.0.0" across the sources, refuting the claimed maximum invariant. -/
theorem checkOneTool_picks_first_not_max :
    (checkOneTool envC1 "2025-01-01" "ai_frameworks" "langchain"
      infoC1).2.current_version = "1.0.0" ∧
    envC1.homebrew "f" = some "1.0.0" ∧
    envC1.pypi "p" = some "2.0.0" ∧
    cmpVer [1, 0, 0] [2, 0, 0] = .lt ∧
    parseVersion "1.0.0" = some [1, 0, 0] ∧
    parseVersion "2.0.0" = some [2, 0, 0] := by
  exact ⟨by decide, rfl, rfl, by decide, by decide, by decide⟩

/-- C1 (amended): whenever a run updates a tracked tool's stored version,
the resulting `current_version` equals the single resolver-selected result
of `_get_latest_version` — the first non-empty source in priority order —
not a maximum over all sources. -/
theorem checkOneTool_sets_resolver_selected_version
    (env : ResolverEnv) (ts cat toolName : String) (info : ToolInfo)
    (h : (checkOneTool env ts cat toolName info).1 ≠ []) :
    ∃ v, getLatestVersion env info = some v ∧
      (checkOneTool env ts cat toolName info).2.current_version = v := by
  cases hg : getLatestVersion env info with
  | none =>
    rw [checkOneTool_none hg] at h
    simp at h
  | some v =>
    by_cases hc : (v != "" && isNewerVersion v info.current_version) = true
    · have hb1 : v ≠ "" := by simpa using ((Bool.and_eq_true _ _).mp hc).1
      have hb2 : isNewerVersion v info.current_version = true :=
        ((Bool.and_eq_true _ _).mp hc).2
      rw [checkOneTool_pos hg hb1 hb2]
      exact ⟨v, rfl, rfl⟩
    · have hcf : (v != "" && isNewerVersion v info.current_version) = false := by
        simpa using hc
      rw [checkOneTool_stale hg hcf] at h
      simp at h

/-- C1 witness: the amended statement applied to the concrete scenario. -/
theorem checkOneTool_sets_resolver_selected_version_witness :
    ∃ v, getLatestVersion envC1 infoC1 = some v ∧
      (checkOneTool envC1 "2025-01-01" "ai_frameworks" "langchain"
        infoC1).2.current_version = v :=
  checkOneTool_sets_resolver_selected_version envC1 "2025-01-01"
    "ai_frameworks" "langchain" infoC1 (by decide)

/-- C2: for a tracked tool whose resolver result is truthy and judged newer
by `_is_newer_version`, one run records exactly one `VersionUpdate` for that
tool entry, with the recorded old/new versions as specified; the stored
version becomes the resolver-selected value; and when both the new and the
old version parse as semantic versions the new one is never smaller. -/
theorem check_tool_updates_exactly_one_update
    (env : ResolverEnv) (ts : String)
    (table : List (String × List (String × ToolInfo)))
    (cat toolName : String) (tools : List (String × ToolInfo))
    (info : ToolInfo) (v : String)
    (hnodupc : (table.map Prod.fst).Nodup)
    (hmemc : (cat, tools) ∈ table)
    (hnodupt : (tools.map Prod.fst).Nodup)
    (hmem : (toolName, info) ∈ tools)
    (h1 : getLatestVersion env info = some v) (h2 : v ≠ "")
    (h3 : isNewerVersion v info.current_version = true) :
    updatesFor toolName cat (checkToolUpdates env ts table).1 = 1 ∧
    (checkOneTool env ts cat toolName info).1 =
      [{ tool := toolName, category := cat,
         old_version := info.current_version, new_version := v,
         description := info.description }] ∧
    (checkOneTool env ts cat toolName info).2.current_version = v ∧
    ∀ a b, parseVersion v = some a →
      parseVersion info.current_version = some b → cmpVer a b ≠ .lt := by
  refine ⟨updatesFor_run table hnodupc tools hmemc hnodupt hmem h1 h2 h3,
    ?_, ?_, ?_⟩
  · rw [checkOneTool_pos h1 h2 h3]
  · rw [checkOneTool_pos h1 h2 h3]
  · intro a b ha hb hlt
    unfold isNewerVersion at h3
    rw [ha, hb] at h3
    change (cmpVer a b == Ordering.gt) = true at h3
    rw [hlt] at h3
    exact absurd h3 (by decide)

/-- C2 witness: the concrete one-tool table records exactly one update. -/
theorem check_tool_updates_exactly_one_update_witness :
    updatesFor "langchain" "ai_frameworks"
      (checkToolUpdates envC2 "2025-03-04" tableC2).1 = 1 :=
  (check_tool_updates_exactly_one_update envC2 "2025-03-04" tableC2
    "ai_frameworks" "langchain" [("langchain", infoC2)] infoC2 "1.3.0"
    (by decide) (by decide) (by decide) (by decide)
    (by decide) (by decide) (by decide)).1

/-- C3: the newer-check uses the semantic ordering (candidate strictly
greater than stored) when both strings parse as semantic versions, and
plain string inequality otherwise. -/
theorem is_newer_version_semver_or_string_inequality (n c : String) :
    (∀ a b, parseVersion n = some a → parseVersion c = some b →
      isNewerVersion n c = (cmpVer a b == .gt)) ∧
    ((parseVersion n = none ∨ parseVersion c = none) →
      isNewerVersion n c = (n != c)) := by
  constructor
  · intro a b ha hb
    unfold isNewerVersion
    rw [ha, hb]
  · intro h
    unfold isNewerVersion
    cases hn : parseVersion n <;> cases hc : parseVersion c <;> simp_all

/-- C3 witness: one parseable pair and one unparseable pair. -/
theorem is_newer_version_semver_or_string_inequality_witness :
    isNewerVersion "1.3.0" "1.2.0" = (cmpVer [1, 3, 0] [1, 2, 0] == .gt) ∧
    isNewerVersion "2024w1" "2024w2" = ("2024w1" != "2024w2") :=
  ⟨(is_newer_version_semver_or_string_inequality "1.3.0" "1.2.0").1
      [1, 3, 0] [1, 2, 0] (by decide) (by decide),
   (is_newer_version_semver_or_string_inequality "2024w1" "2024w2").2
      (Or.inl (by decide))⟩

/-- Modelled from the spec's words, for comparison with the code's
`_get_latest_version`: the results of the configured sources in the fixed
priority order Homebrew, PyPI, npm, GitHub releases. -/
def resolverCandidates (env : ResolverEnv) (info : ToolInfo) :
    List (Option String) :=
  (if optTruthy info.homebrew_formula then
    [env.homebrew (info.homebrew_formula.getD "")] else []) ++
  (if optTruthy info.pypi_package then
    [env.pypi (info.pypi_package.getD "")] else []) ++
  (if optTruthy info.npm_package then
    [env.npm (info.npm_package.getD "")] else []) ++
  (if optTruthy info.source then
    [env.github (info.source.getD "")] else [])

/-- C4: `_get_latest_version` returns the first truthy (non-empty) result
of the configured sources in priority order Homebrew, PyPI, npm, GitHub;
when every configured source yields an empty result it returns no
(truthy) version. -/
theorem get_latest_version_first_nonempty (env : ResolverEnv)
    (info : ToolInfo) :
    (∀ v, (resolverCandidates env info).find? optTruthy = some v →
      getLatestVersion env info = v) ∧
    (((resolverCandidates env info).all fun o => !optTruthy o) = true →
      optTruthy (getLatestVersion env info) = false) := by
  unfold getLatestVersion resolverCandidates
  cases hhb : optTruthy info.homebrew_formula <;>
  cases hhv : optTruthy (env.homebrew (info.homebrew_formula.getD "")) <;>
  cases hpy : optTruthy info.pypi_package <;>
  cases hpv : optTruthy (env.pypi (info.pypi_package.getD "")) <;>
  cases hnp : optTruthy info.npm_package <;>
  cases hnv : optTruthy (env.npm (info.npm_package.getD "")) <;>
  cases hsrc : optTruthy info.source <;>
  simp [hhb, hhv, hpy, hpv, hnp, hnv, hsrc, List.find?] <;>
  first
    | rfl
    | (intro v
       cases optTruthy (env.github (info.source.getD "")) <;> simp)

/-- C4 witness: with only PyPI configured and answering, the lookup
returns the PyPI result. -/
theorem get_latest_version_first_nonempty_witness :
    getLatestVersion envC2 infoC2 = some "1.3.0" :=
  (get_latest_version_first_nonempty envC2 infoC2).1 (some "1.3.0") (by decide)

/-- Search-result repositories with 10, 60, 51 and 49 stars. -/
def repo10 : Repo :=
  { name := "r10", html_url := "u10", description := some "d10",
    stargazers_count := 10, language := some "Python",
    created_at := "2025-05-01" }

def repo60 : Repo :=
  { name := "r60", html_url := "u60", description := some "d60",
    stargazers_count := 60, language := some "Python",
    created_at := "2025-05-01" }

def repo51 : Repo :=
  { name := "r51", html_url := "u51", description := none,
    stargazers_count := 51, language := none,
    created_at := "2025-05-01" }

def repo49 : Repo :=
  { name := "r49", html_url := "u49", description := some "d49",
    stargazers_count := 49, language := some "Rust",
    created_at := "2025-05-01" }

/-- C5: a candidate is retained by the trend scanner iff its star count is
strictly greater than 50, irrespective of position; in particular the list
with star counts [10, 60, 51, 49] yields exactly the 60- and 51-star
entries. -/
theorem search_trending_star_threshold :
    (∀ (init : List TrendEntry) (topic : String) (items : List Repo)
        (e : TrendEntry),
      e ∈ searchTopicStep init topic items ↔
        e ∈ init ∨ ∃ r ∈ items, r.stargazers_count > 50 ∧
          e = mkTrendEntry topic r) ∧
    searchTopicStep [] "ai-agents" [repo10, repo60, repo51, repo49] =
      [mkTrendEntry "ai-agents" repo60, mkTrendEntry "ai-agents" repo51] := by
  constructor
  · intro init topic items e
    rw [searchTopicStep_eq]
    simp only [List.mem_append, List.mem_map, List.mem_filter]
    constructor
    · rintro (h | ⟨r, ⟨hr, hs⟩, he⟩)
      · exact Or.inl h
      · exact Or.inr ⟨r, hr, by simpa using hs, he.symm⟩
    · rintro (h | ⟨r, hr, hs, he⟩)
      · exact Or.inl h
      · exact Or.inr ⟨r, ⟨hr, by simpa using hs⟩, he.symm⟩
  · rw [searchTopicStep_eq]
    rfl

/-- C6: the newer-check is reflexive-safe — an identical version string is
never judged newer than itself, in both the parsed and the fallback case. -/
theorem is_newer_version_irrefl (v : String) : isNewerVersion v v = false := by
  unfold isNewerVersion
  cases h : parseVersion v with
  | none => simp
  | some a => simp only [cmpVer_self]; rfl

/-- C7 counterexample: a transport-level success whose decoded body has an
unexpected shape — PyPI returning `{"info": {}}` — makes
`check_pypi_version` raise a `KeyError` past its boundary instead of
returning empty. -/
theorem check_pypi_malformed_response_raises :
    checkPypiVersion (some (Json.obj [("info", Json.obj [])])) =
      .error .keyError := rfl

/-- C7 (amended): every resolver returns empty, without raising, for the
fault classes its code actually catches — transport faults, timeouts and
JSON-decode faults (all surfaced as an absent decoded response), and for
Homebrew also a caught subprocess fault or nonzero exit; but a decoded
response of unexpected shape can raise past the resolver boundary. -/
theorem resolvers_empty_on_caught_faults :
    checkPypiVersion none = .ok .null ∧
    checkNpmVersion none = .ok .null ∧
    (∀ url, checkGithubReleases url none = .ok .null) ∧
    checkHomebrewVersion .timeoutExpired = .ok .null ∧
    checkHomebrewVersion .calledProcessError = .ok .null ∧
    (∀ rc, checkHomebrewVersion (.completed rc none) = .ok .null) ∧
    (∀ rc dec, rc ≠ 0 → checkHomebrewVersion (.completed rc dec) = .ok .null) := by
  refine ⟨rfl, rfl, ?_, rfl, rfl, ?_, ?_⟩
  · intro url
    unfold checkGithubReleases
    cases h : extractOwnerRepo url <;> simp
  · intro rc
    unfold checkHomebrewVersion
    by_cases h : (rc == 0) = true <;> simp [h]
  · intro rc dec h
    unfold checkHomebrewVersion
    have hf : (rc == 0) = false := by simpa using h
    simp [hf]

/-- C7 witness: a nonzero `brew` exit yields an empty result. -/
theorem resolvers_empty_on_caught_faults_witness :
    checkHomebrewVersion (.completed 1 (some (Json.arr []))) = .ok .null :=
  resolvers_empty_on_caught_faults.2.2.2.2.2.2 1 (some (Json.arr []))
    (by decide)

/-- C8 counterexample: a sections list whose single section carries no
items still emits a `## Empty` header, so the document is not only the
title line and the timestamp line. -/
theorem markdown_report_itemless_section_not_minimal :
    generateMarkdownReport "2025-01-01 00:00:00" "Update Summary"
        [{ title := "Empty" }] =
      "# Update Summary\n*Generated: 2025-01-01 00:00:00*\n\n## Empty\n" ∧
    generateMarkdownReport "2025-01-01 00:00:00" "Update Summary"
        [{ title := "Empty" }] ≠
      "# Update Summary\n*Generated: 2025-01-01 00:00:00*\n" := by
  constructor <;> decide

/-- C8 (amended): with an empty sections list the generated report is
exactly the title line followed by the generation timestamp line. -/
theorem markdown_report_empty_sections_minimal (now title : String) :
    generateMarkdownReport now title [] =
      "# " ++ title ++ "\n" ++ "*Generated: " ++ now ++ "*\n" := by
  unfold generateMarkdownReport
  simp [String.intercalate, String.intercalate.go, String.append_assoc]
  congr 2

/-- A README with a header row and the framework table row for ToolX. -/
def docC9 : List Char := ("| Tool | Version |\n|**ToolX**|1.0.0|\n").data

/-- A recorded update for ToolX whose category is not `ai_frameworks`. -/
def updC9 : VersionUpdate :=
  { tool := "ToolX", category := "mcp_tools", old_version := "1.0.0",
    new_version := "1.1.0", description := "d" }

/-- A recorded `ai_frameworks` update for ToolX. -/
def updW9 : VersionUpdate :=
  { tool := "ToolX", category := "ai_frameworks", old_version := "1.0.0",
    new_version := "1.1.0", description := "d" }

/-- C9 counterexample: the document contains the row `**ToolX**|1.0.0|`
(the pattern matches at offset 20) and an update for ToolX to "1.1.0" is
recorded, yet the rewrite leaves the document fully unchanged because the
update's category is not `ai_frameworks`. -/
theorem update_readme_ignores_non_framework_update :
    updateReadmeVersions "2025-01-01" [updC9] docC9 = docC9 ∧
    updC9.new_version ≠ updC9.old_version ∧
    rowMatchAt (rowPat updC9.tool) (List.drop 20 docC9) =
      some (rowPat "ToolX", "1.0.0".data, "\n".data) := by
  refine ⟨rfl, by decide, by decide⟩

/-- C9 (amended): for a recorded update whose category is `ai_frameworks`,
the rewrite replaces the matched row's version cell by the new version and
the generation date, and reproduces the rest of the document (before and
after the matched row) verbatim. -/
theorem update_readme_rewrites_framework_row
    (u : VersionUpdate) (date : String) (pre v post : List Char)
    (hcat : u.category = "ai_frameworks")
    (hv : v ≠ []) (hp : ∀ c ∈ v, c ≠ '|')
    (hpre : ∀ i < pre.length,
      rowMatchAt (rowPat u.tool)
        (List.drop i (pre ++ (rowPat u.tool ++ (v ++ '|' :: post)))) = none)
    (hpost : ∀ i ≤ post.length,
      rowMatchAt (rowPat u.tool) (List.drop i post) = none) :
    updateReadmeVersions date [u]
        (pre ++ (rowPat u.tool ++ (v ++ '|' :: post))) =
      pre ++ (rowPat u.tool ++ (rowRep u.new_version date ++ post)) := by
  unfold updateReadmeVersions
  simp only [List.foldl_cons, List.foldl_nil]
  unfold applyUpdateToReadme
  rw [if_pos (by simp [hcat])]
  rw [subRow_append_of_no_match _ _ pre _ hpre]
  rw [subRow_match _ (rowMatchAt_here (rowPat u.tool) v post hv hp)]
  have hpost' : ∀ i, rowMatchAt (rowPat u.tool) (List.drop i post) = none := by
    intro i
    by_cases h : i ≤ post.length
    · exact hpost i h
    · rw [List.drop_eq_nil_of_le (by omega)]
      exact rowMatchAt_nil _
  rw [subRow_eq_self_of_no_match _ _ post hpost']
  simp [List.append_assoc]

/-- C9 witness: the amended statement applied to a concrete document. -/
theorem update_readme_rewrites_framework_row_witness :
    updateReadmeVersions "2025-02-03" [updW9]
        ("Intro\n|".data ++ (rowPat "ToolX" ++ ("1.0.0".data ++ '|' :: "\nEnd".data))) =
      "Intro\n|".data ++ (rowPat "ToolX" ++ (rowRep "1.1.0" "2025-02-03" ++ "\nEnd".data)) :=
  update_readme_rewrites_framework_row updW9 "2025-02-03" "Intro\n|".data
    "1.0.0".data "\nEnd".data rfl (by decide) (by decide) (by decide)
    (by decide)

/-- C10: a successful GitHub release lookup returns the release tag with
all leading `v` characters removed (`.lstrip('v')` strips every leading
`v`, not just one); and when the URL has no `github.com/owner/repo` part
the lookup returns nothing without consulting the response. -/
theorem check_github_releases_spec (repoUrl tag : String)
    (rest : List (String × Json)) :
    ((∃ p, extractOwnerRepo repoUrl = some p) →
      checkGithubReleases repoUrl
          (some (Json.obj (("tag_name", Json.str tag) :: rest))) =
        .ok (.str (String.mk (tag.data.dropWhile (fun ch => ch == 'v'))))) ∧
    (extractOwnerRepo repoUrl = none →
      ∀ resp, checkGithubReleases repoUrl resp = .ok .null) := by
  constructor
  · rintro ⟨p, hp⟩
    unfold checkGithubReleases
    rw [hp]
    simp [jsonTruthy, jsonContains, getIndex, List.find?]
    rfl
  · intro h resp
    unfold checkGithubReleases
    rw [h]

/-- C10 witness: a `vv`-prefixed tag loses both leading `v`s; a URL with no
github.com owner/repo path yields nothing. -/
theorem check_github_releases_spec_witness :
    checkGithubReleases "https://github.com/foo/bar"
        (some (Json.obj [("tag_name", Json.str "vv1.2.0")])) =
      .ok (.str (String.mk ("vv1.2.0".data.dropWhile (fun ch => ch == 'v')))) ∧
    checkGithubReleases "https://example.com/x"
        (some (Json.obj [("tag_name", Json.str "v9")])) = .ok .null :=
  ⟨(check_github_releases_spec "https://github.com/foo/bar" "vv1.2.0" []).1
      ⟨("foo", "bar"), by decide⟩,
   (check_github_releases_spec "https://example.com/x" "v9" []).2 (by decide)
      (some (Json.obj [("tag_name", Json.str "v9")]))⟩
